import Mathlib

/-!
Verification development for the `offmyport` platform abstraction layer
(`src/platform/unix.ts`, `src/platform/windows.ts`, `src/platform/types.ts`).

The TypeScript adapters are shallowly embedded: each parsing/decision
function is translated into an executable Lean definition, with the
boundary to the operating system (the result of `Bun.spawnSync`, the JSON
value produced by `JSON.parse` on PowerShell output, the host-dependent
`new Date` parser) represented as explicit inputs.
-/

namespace OffMyPort

/-! ## JavaScript string primitives

Executable models of the JS string operations the adapters use:
`String.prototype.includes`, `split(/\s+/)`, `parseInt(s, 10)`,
`parseFloat`, `replace(",", ".")`, and the concrete regular expressions
appearing in the source. -/

/-- `isPrefixOfCl p l` : the char list `p` is a prefix of `l`. -/
def isPrefixOfCl : List Char → List Char → Bool
  | [], _ => true
  | _ :: _, [] => false
  | a :: as, b :: bs => a == b && isPrefixOfCl as bs

/-- Substring search on char lists, checking every start position. -/
def containsSubstrCl (pat : List Char) : List Char → Bool
  | [] => isPrefixOfCl pat []
  | l@(_ :: rest) => isPrefixOfCl pat l || containsSubstrCl pat rest

/-- Model of JS `s.includes(pat)`. -/
def containsSubstr (s pat : String) : Bool :=
  containsSubstrCl pat.toList s.toList

/-- Core of `split(/\s+/)`: split on maximal whitespace runs, keeping the
(possibly empty) tokens at both edges, exactly as JS regex split does
(`" a b ".split(/\s+/) === ["", "a", "b", ""]`). -/
def splitWsGo : List Char → List Char → List (List Char)
  | [], cur => [cur.reverse]
  | [c], cur =>
    if c.isWhitespace then [cur.reverse, []] else [(c :: cur).reverse]
  | c :: d :: rest, cur =>
    if c.isWhitespace then
      if d.isWhitespace then splitWsGo (d :: rest) cur
      else cur.reverse :: splitWsGo (d :: rest) []
    else splitWsGo (d :: rest) (c :: cur)

/-- Model of JS `s.split(/\s+/)`. -/
def jsSplitWs (s : String) : List String :=
  (splitWsGo s.toList []).map (fun l => String.mk l)

/-- Core of `split("\n")`. -/
def splitNlGo : List Char → List Char → List (List Char)
  | [], cur => [cur.reverse]
  | c :: rest, cur =>
    if c = '\n' then cur.reverse :: splitNlGo rest []
    else splitNlGo rest (c :: cur)

/-- Model of JS `s.split("\n")`. -/
def jsSplitNl (s : String) : List String :=
  (splitNlGo s.toList []).map (fun l => String.mk l)

/-- Model of JS `s.trim()`: strip whitespace from both ends. -/
def jsTrim (s : String) : String :=
  String.mk
    (((s.toList.dropWhile Char.isWhitespace).reverse.dropWhile
      Char.isWhitespace).reverse)

/-- Numeric value of a decimal digit string. -/
def digitsToNat (l : List Char) : Nat :=
  l.foldl (fun n c => n * 10 + (c.toNat - Char.toNat (Char.ofNat 48))) 0

/-- Model of JS `parseInt(s, 10)`: skip leading whitespace, optional sign,
then the longest decimal-digit run; `NaN` (here `none`) when no digit. -/
def parseIntJs (s : String) : Option Int :=
  let l := s.toList.dropWhile Char.isWhitespace
  let signAndRest : Int × List Char :=
    match l with
    | '-' :: rest => (-1, rest)
    | '+' :: rest => (1, rest)
    | _ => (1, l)
  let ds := signAndRest.2.takeWhile Char.isDigit
  if ds = [] then none else some (signAndRest.1 * (digitsToNat ds : Int))

/-- Model of JS `parseFloat`: skip leading whitespace, optional sign,
integer digits, optional `.` plus fraction digits; `NaN` (`none`) when no
digit at all.  (The exponent suffix is not modelled: the `ps` percentage
columns the adapter feeds here never carry one.) -/
def parseFloatJs (s : String) : Option Rat :=
  let l := s.toList.dropWhile Char.isWhitespace
  let signAndRest : Rat × List Char :=
    match l with
    | '-' :: rest => (-1, rest)
    | '+' :: rest => (1, rest)
    | _ => (1, l)
  let ipart := signAndRest.2.takeWhile Char.isDigit
  let rest := signAndRest.2.dropWhile Char.isDigit
  let fpart : List Char :=
    match rest with
    | '.' :: r => r.takeWhile Char.isDigit
    | _ => []
  if ipart = [] ∧ fpart = [] then none
  else
    some (signAndRest.1 *
      ((digitsToNat ipart : Rat) + (digitsToNat fpart : Rat) / (10 ^ fpart.length)))

/-- Model of JS `s.replace(",", ".")` (first occurrence only). -/
def replaceFirstCommaGo : List Char → List Char
  | [] => []
  | c :: rest => if c = ',' then '.' :: rest else c :: replaceFirstCommaGo rest

/-- `s.replace(",", ".")` on strings. -/
def replaceFirstComma (s : String) : String :=
  String.mk (replaceFirstCommaGo s.toList)

/-- Model of the regex `:(\d+)$` used on address fields: a nonempty run of
digits at the very end of the string, preceded by a colon.  Returns the
captured digit run. -/
def trailingPortMatch (s : String) : Option (List Char) :=
  let rev := s.toList.reverse
  let ds := rev.takeWhile Char.isDigit
  match rev.dropWhile Char.isDigit with
  | ':' :: _ => if ds = [] then none else some ds.reverse
  | _ => none

/-- Drop an exact literal from the front of a char list; `none` when the
literal is not a prefix. -/
def dropLit : List Char → List Char → Option (List Char)
  | [], l => some l
  | _ :: _, [] => none
  | p :: ps, c :: cs => if p = c then dropLit ps cs else none

/-- One position of the regex `/\d{4}\s{2,}(.+)$/` (no `m` flag): four
digits, then a whitespace run of length at least two, then at least one
`.`-matchable character (anything but a newline) reaching the end of the
string.  Greedy `\s{2,}` with backtracking: when nothing follows the
maximal run, the regex gives one trailing whitespace character back to
`(.+)` provided the run has length at least three and that character is
not a newline. -/
def yearPathHere (l : List Char) : Option (List Char) :=
  match l with
  | a :: b :: c :: d :: rest =>
    if a.isDigit && b.isDigit && c.isDigit && d.isDigit then
      let ws := rest.takeWhile Char.isWhitespace
      let after := rest.dropWhile Char.isWhitespace
      if ws.length < 2 then none
      else if after ≠ [] then
        if after.contains '\n' then none else some after
      else
        match ws.getLast? with
        | some ch => if 3 ≤ ws.length ∧ ch ≠ '\n' then some [ch] else none
        | none => none
    else none
  | _ => none

/-- Leftmost match of `/\d{4}\s{2,}(.+)$/` over the whole string,
returning the `(.+)` capture. -/
def yearPathMatch : List Char → Option (List Char)
  | [] => none
  | l@(_ :: rest) =>
    match yearPathHere l with
    | some p => some p
    | none => yearPathMatch rest

/-- Model of `output.match(/^n(.+)$/m)?.[1]`: the first line that starts
with `n` and has at least one further character; capture the remainder of
that line. -/
def cwdLsofMatch (out : String) : Option String :=
  (jsSplitNl out).findSome? (fun line =>
    match line.toList with
    | 'n' :: c :: rest => some (String.mk (c :: rest))
    | _ => none)

/-- One position of the regex `/users:\(\("([^"]+)",pid=(\d+)/`: the
literal `users:(("`, a nonempty run of non-quote characters, a closing
quote, the literal `,pid=`, then a nonempty digit run.  Returns the
process name capture and the numeric pid capture. -/
def ssUsersHere (l : List Char) : Option (String × Nat) :=
  match dropLit ("users:((\"".toList) l with
  | none => none
  | some after =>
    let nm := after.takeWhile (fun c => c ≠ '"')
    let rem := after.dropWhile (fun c => c ≠ '"')
    if nm = [] then none
    else
      match rem with
      | '"' :: rem2 =>
        match dropLit (",pid=".toList) rem2 with
        | none => none
        | some rem3 =>
          let ds := rem3.takeWhile Char.isDigit
          if ds = [] then none else some (String.mk nm, digitsToNat ds)
      | _ => none

/-- Leftmost match of `/users:\(\("([^"]+)",pid=(\d+)/`, retrying at the
next position when the tail of the pattern fails (regex engine
semantics). -/
def ssUsersScan : List Char → Option (String × Nat)
  | [] => none
  | l@(_ :: rest) =>
    match ssUsersHere l with
    | some r => some r
    | none => ssUsersScan rest

/-! ## Entity model and OS boundary -/

/-- `ProcessInfo` from `src/platform/types.ts`. -/
structure ProcessInfo where
  command : String
  pid : Int
  user : String
  port : Int
  protocol : String
deriving DecidableEq, Repr

/-- `ProcessMetadata` from `src/platform/types.ts`.  Numeric fields are
rationals (JS numbers in the ranges produced here are exact). -/
structure ProcessMetadata where
  cpuPercent : Option Rat
  memoryBytes : Option Rat
  startTime : Option String
  path : Option String
  cwd : Option String
deriving DecidableEq, Repr

/-- Outcome of one `Bun.spawnSync` call, as observed by the adapter:
either the process ran (exit code, captured stdout and stderr), or the
spawn itself threw — with `enoent = true` exactly when the thrown error
has `code === "ENOENT"` (executable not found). -/
inductive SpawnOutcome where
  | ran (exitCode : Int) (stdout stderr : String)
  | spawnError (enoent : Bool)
deriving DecidableEq, Repr

/-- Result of `tryLsof` / `trySs`: `unavailable` models the `null`
return ("tool not installed, try fallback"), `result` a returned array,
`thrownErr` the re-thrown non-ENOENT spawn error. -/
inductive TryResult where
  | unavailable
  | result (ps : List ProcessInfo)
  | thrownErr
deriving DecidableEq, Repr

/-- Observable outcome of `getListeningProcesses`: a returned list, the
fatal `process.exit(1)`, or a propagated exception. -/
inductive DiscoveryResult where
  | ok (ps : List ProcessInfo)
  | fatalExit
  | thrown
deriving DecidableEq, Repr

/-! ## Unix adapter (`src/platform/unix.ts`) -/

/-- The `(pid, port)` deduplication key (`` `${p.pid}:${p.port}` `` in the
source; decimal renderings of two numbers around a colon are in bijection
with the pairs themselves). -/
def pKey (p : ProcessInfo) : Int × Int := (p.pid, p.port)

/-- The `seen`-set filter at the end of both Unix parsers: keep an entry
iff its `(pid, port)` key has not been seen before. -/
def dedupGo (seen : List (Int × Int)) : List ProcessInfo → List ProcessInfo
  | [] => []
  | p :: rest =>
    if pKey p ∈ seen then dedupGo seen rest
    else p :: dedupGo (pKey p :: seen) rest

/-- Deduplicate a parsed process list by `(pid, port)`, keeping first
occurrences. -/
def dedupByPidPort (ps : List ProcessInfo) : List ProcessInfo :=
  dedupGo [] ps

/-- One iteration of the `parseLsofOutput` line loop: `continue` is
`none`, a `processes.push` is `some`. -/
def parseLsofLine (line : String) : Option ProcessInfo :=
  if jsTrim line = "" then none
  else
    let parts := jsSplitWs line
    let command := parts.getD 0 ""
    let pidStr := parts.getD 1 ""
    let user := parts.getD 2 ""
    let nm := parts.getD 8 ""
    if command = "" ∨ pidStr = "" ∨ user = "" then none
    else
      match parseIntJs pidStr with
      | none => none
      | some pid =>
        match trailingPortMatch nm with
        | none => none
        | some ds =>
          -- `parseInt` on the all-digits capture of `:(\d+)$`
          some ⟨command, pid, user, (digitsToNat ds : Int), "TCP"⟩

/-- `UnixAdapter.parseLsofOutput`: skip the header line, parse each
remaining line, then deduplicate by `(pid, port)`. -/
def parseLsofOutput (out : String) : List ProcessInfo :=
  dedupByPidPort (((jsSplitNl out).drop 1).filterMap parseLsofLine)

/-- One iteration of the `parseSsOutput` line loop.  `userOf` is the
boundary of `getProcessUser` (ownership lookup via `stat` on `/proc`),
whose `?? "unknown"` default is applied here as in the source. -/
def parseSsLine (userOf : Int → Option String) (line : String) : Option ProcessInfo :=
  if jsTrim line = "" then none
  else if ¬ isPrefixOfCl "LISTEN".toList line.toList then none
  else
    let parts := jsSplitWs line
    let localAddr := parts.getD 3 ""
    match trailingPortMatch localAddr with
    | none => none
    | some ds =>
      match ssUsersScan line.toList with
      | none => none
      | some (command, pidN) =>
        if pidN = 0 then none
        else
          some ⟨command, (pidN : Int), (userOf (pidN : Int)).getD "unknown",
            (digitsToNat ds : Int), "TCP"⟩

/-- `UnixAdapter.parseSsOutput`: skip the header line, parse each
remaining `LISTEN` line, then deduplicate by `(pid, port)`. -/
def parseSsOutput (userOf : Int → Option String) (out : String) : List ProcessInfo :=
  dedupByPidPort (((jsSplitNl out).drop 1).filterMap (parseSsLine userOf))

/-- `UnixAdapter.tryLsof` over the observed outcome of the
`lsof -iTCP -sTCP:LISTEN -P -n` spawn. -/
def tryLsof (r : SpawnOutcome) : TryResult :=
  match r with
  | .ran c out err =>
    if c ≠ 0 then
      if containsSubstr err "not found" || c = 127 then .unavailable
      else .result []
    else .result (parseLsofOutput out)
  | .spawnError enoent => if enoent then .unavailable else .thrownErr

/-- `UnixAdapter.trySs` over the observed outcome of the `ss -tulnp`
spawn. -/
def trySs (userOf : Int → Option String) (r : SpawnOutcome) : TryResult :=
  match r with
  | .ran c out err =>
    if c ≠ 0 then
      if containsSubstr err "not found" || c = 127 then .unavailable
      else .result []
    else .result (parseSsOutput userOf out)
  | .spawnError enoent => if enoent then .unavailable else .thrownErr

/-- Spec-side predicate, following the spec's words: the primary tool is
"signalled unavailable" exactly when the exit code is 127, the stderr
text contains the `not found` marker, or the spawn threw an
executable-not-found (ENOENT) error. -/
def spawnUnavailable (r : SpawnOutcome) : Bool :=
  match r with
  | .ran c _ err => c ≠ 0 && (containsSubstr err "not found" || c = 127)
  | .spawnError enoent => enoent

/-- `UnixAdapter.getListeningProcesses`, instrumented with a flag
recording whether the `ss` fallback was consulted.  The two
`SpawnOutcome` arguments are the respective spawn boundaries. -/
def getListeningProcessesT (userOf : Int → Option String)
    (lsofR ssR : SpawnOutcome) : DiscoveryResult × Bool :=
  match tryLsof lsofR with
  | .result ps => (.ok ps, false)
  | .thrownErr => (.thrown, false)
  | .unavailable =>
    match trySs userOf ssR with
    | .result ps => (.ok ps, true)
    | .thrownErr => (.thrown, true)
    | .unavailable => (.fatalExit, true)

/-- `UnixAdapter.getProcessCwd`: `lsof -a -p PID -d cwd -Fn` (exit 0 and
an `^n(.+)$` line), falling back to `readlink /proc/PID/cwd` (exit 0 and
nonempty trimmed stdout); `null` when both fail.  Spawn exceptions are
swallowed by the `catch` blocks. -/
def getProcessCwd (lsofR readlinkR : SpawnOutcome) : Option String :=
  let fromLsof : Option String :=
    match lsofR with
    | .ran c out _ => if c = 0 then cwdLsofMatch out else none
    | .spawnError _ => none
  match fromLsof with
  | some p => some p
  | none =>
    match readlinkR with
    | .ran c out _ =>
      if c = 0 then
        let t := jsTrim out
        if t = "" then none else some t
      else none
    | .spawnError _ => none

/-- `%cpu` column: `parseFloat((parts[0] ?? "").replace(",", "."))`,
`NaN` becoming `null`. -/
def unixCpuPercent (parts : List String) : Option Rat :=
  parseFloatJs (replaceFirstComma (parts.getD 0 ""))

/-- `rss` column: `parseInt(parts[2] ?? "", 10) || null` — both `NaN`
and `0` collapse to `null`. -/
def unixRssKb (parts : List String) : Option Int :=
  match parseIntJs (parts.getD 2 "") with
  | some k => if k = 0 then none else some k
  | none => none

/-- `memoryBytes`: `rssKb ? rssKb * 1024 : null`. -/
def unixMemoryBytes (parts : List String) : Option Rat :=
  Option.map (fun k : Int => (k : Rat) * 1024) (unixRssKb parts)

/-- `parts.slice(3, 8).join(" ")` — the five-token `lstart` field. -/
def unixDateStr (parts : List String) : String :=
  String.intercalate " " ((parts.drop 3).take 5)

/-- `startTime` extraction.  `dateParse` is the host boundary for
`new Date(s)` / `toISOString()`: `some iso` when the engine parses the
string into a valid instant, `none` when it yields `NaN` or throws — in
which case the raw string is kept, as in the source. -/
def unixStartTime (dateParse : String → Option String) (parts : List String) :
    Option String :=
  if 8 ≤ parts.length then
    some ((dateParse (unixDateStr parts)).getD (unixDateStr parts))
  else none

/-- `path` extraction: `output.match(/\d{4}\s{2,}(.+)$/)?.[1]?.trim() ?? null`. -/
def unixPath (output : String) : Option String :=
  (yearPathMatch output.toList).map (fun p => jsTrim (String.mk p))

/-- `UnixAdapter.getProcessMetadata` over the outcomes of the `ps`
spawn and of the two cwd-lookup spawns.  Every failure path of the
source (`catch`, non-zero exit, empty output) is a total branch here, so
the function never raises. -/
def unixGetProcessMetadata (dateParse : String → Option String)
    (psR cwdLsofR cwdReadlinkR : SpawnOutcome) : ProcessMetadata :=
  let cwd := getProcessCwd cwdLsofR cwdReadlinkR
  match psR with
  | .spawnError _ => ⟨none, none, none, none, cwd⟩
  | .ran c out _ =>
    if c ≠ 0 then ⟨none, none, none, none, cwd⟩
    else
      let output := jsTrim out
      if output = "" then ⟨none, none, none, none, cwd⟩
      else
        let parts := jsSplitWs (jsTrim output)
        ⟨unixCpuPercent parts, unixMemoryBytes parts,
          unixStartTime dateParse parts, unixPath output, cwd⟩

/-- The failure condition of the single-PID metadata query: the `ps`
tool exited non-zero, produced only-whitespace output, or the spawn
threw. -/
def psQueryFailed (r : SpawnOutcome) : Bool :=
  match r with
  | .ran c out _ => c ≠ 0 || jsTrim out = ""
  | .spawnError _ => true

/-- `UnixAdapter.killProcess`: a direct `process.kill(pid, signal)`. -/
inductive KillSignal where
  | SIGTERM
  | SIGKILL
deriving DecidableEq, Repr

/-! ## Windows adapter (`src/platform/windows.ts`) -/

/-- One connection record of the PowerShell discovery JSON (`Port`,
`PID`, `Name`, `User`); `user = none` models a `null`/absent `User`
field, which the source maps to `"unknown"` via `??`. -/
structure WinConn where
  port : Int
  pid : Int
  name : String
  user : Option String
deriving DecidableEq, Repr

/-- The stdout of the discovery PowerShell spawn, observed at the
`JSON.parse` boundary: the trimmed output is empty (`!output`), the
literal `"null"`, a JSON array, a bare JSON object (the one-result
collapse of `ConvertTo-Json`), or text that makes `JSON.parse` throw. -/
inductive WinStdout where
  | emptyOut
  | nullLit
  | arr (its : List WinConn)
  | obj (it : WinConn)
  | unparsable
deriving DecidableEq, Repr

/-- `items.map(...)` body of `WindowsAdapter.getListeningProcesses`. -/
def winConnToInfo (c : WinConn) : ProcessInfo :=
  ⟨c.name, c.pid, c.user.getD "unknown", c.port, "TCP"⟩

/-- `WindowsAdapter.getListeningProcesses`: non-zero shell exit is fatal
(`process.exit(1)`); otherwise both JSON shapes are normalized into a
list, empty/`null` output gives `[]`, and a parse failure gives `[]`. -/
def winGetListeningProcesses (exitCode : Int) (out : WinStdout) : DiscoveryResult :=
  if exitCode ≠ 0 then .fatalExit
  else
    match out with
    | .emptyOut => .ok []
    | .nullLit => .ok []
    | .arr its => .ok (its.map winConnToInfo)
    | .obj it => .ok ([it].map winConnToInfo)
    | .unparsable => .ok []

/-- A JSON field value as tested by `typeof v === "number"`. -/
inductive JVal where
  | num (q : Rat)
  | str (s : String)
  | nullv
  | other
deriving DecidableEq, Repr

/-- `typeof v === "number" ? v : null`. -/
def jnumOf (v : JVal) : Option Rat :=
  match v with
  | .num q => some q
  | _ => none

/-- One item of the batch-metadata PowerShell JSON: its `PID` key plus
the metadata fields.  String-ish fields carry the result of `?? null`
(absent/null collapse to `none`). -/
structure WinItem where
  pid : Int
  cpu : JVal
  memory : JVal
  startTime : Option String
  path : Option String
  cwd : Option String
deriving DecidableEq, Repr

/-- The `ProcessMetadata` written into an existing map slot for a
returned batch item. -/
def winItemToMetadata (it : WinItem) : ProcessMetadata :=
  ⟨jnumOf it.cpu, jnumOf it.memory, it.startTime, it.path, it.cwd⟩

/-- `WindowsAdapter.emptyMetadata`. -/
def emptyMetadata : ProcessMetadata := ⟨none, none, none, none, none⟩

/-- Outcome of the batch-metadata spawn at the `JSON.parse` boundary:
spawn threw or exited non-zero; trimmed stdout was `""`, `"null"` or
`"[]"`; a JSON array; a bare JSON object (one-result collapse); or
unparsable stdout (`JSON.parse` throws, the `catch` keeps the map). -/
inductive BatchOutcome where
  | spawnFailed
  | emptyOut
  | arr (its : List WinItem)
  | obj (it : WinItem)
  | unparsable
deriving DecidableEq, Repr

/-- JS `Map` as an insertion-ordered association list. -/
def mapGet (m : List (Int × ProcessMetadata)) (k : Int) : Option ProcessMetadata :=
  match m with
  | [] => none
  | (k2, v) :: rest => if k2 = k then some v else mapGet rest k

/-- JS `Map.set`: overwrite in place when the key exists, else append. -/
def mapSet (m : List (Int × ProcessMetadata)) (k : Int) (v : ProcessMetadata) :
    List (Int × ProcessMetadata) :=
  match m with
  | [] => [(k, v)]
  | (k2, v2) :: rest => if k2 = k then (k, v) :: rest else (k2, v2) :: mapSet rest k v

/-- The "initialize with defaults" loop of `getProcessMetadataBatch`. -/
def initMetadataMap (pids : List Int) : List (Int × ProcessMetadata) :=
  pids.foldl (fun m pid => mapSet m pid emptyMetadata) []

/-- The item loop of `getProcessMetadataBatch`: for each returned item,
mutate the existing slot for `item.PID` when there is one (`if
(existing)`), ignore the item otherwise. -/
def applyItems (m : List (Int × ProcessMetadata)) (its : List WinItem) :
    List (Int × ProcessMetadata) :=
  its.foldl
    (fun m it =>
      match mapGet m it.pid with
      | some _ => mapSet m it.pid (winItemToMetadata it)
      | none => m)
    m

/-- The items carried by a batch outcome after the
`Array.isArray(data) ? data : [data]` normalization (empty for the
failure branches, which leave the map untouched). -/
def batchItems : BatchOutcome → List WinItem
  | .arr its => its
  | .obj it => [it]
  | _ => []

/-- `WindowsAdapter.getProcessMetadataBatch`. -/
def winGetProcessMetadataBatch (pids : List Int) (q : BatchOutcome) :
    List (Int × ProcessMetadata) :=
  if pids = [] then []
  else
    let init := initMetadataMap pids
    match q with
    | .spawnFailed => init
    | .emptyOut => init
    | .unparsable => init
    | .arr its => applyItems init its
    | .obj it => applyItems init [it]

/-- Outcome of `killProcess` as seen by the caller. -/
inductive KillOutcome where
  | ok
  | threw (e : String)
deriving DecidableEq, Repr

/-- Trace of `WindowsAdapter.killProcess`: the observable outcome,
whether `taskkill` was spawned, and with which argument vector. -/
structure WinKillTrace where
  outcome : KillOutcome
  taskkillInvoked : Bool
  taskkillArgs : List String
deriving DecidableEq, Repr

/-- `WindowsAdapter.killProcess`: `process.kill` first (`nativeErr =
some e` when it throws `e`); on a throw, spawn `taskkill /PID pid`
(plus `/F` exactly for `SIGKILL`), and re-throw the original error when
`taskkill` exits non-zero. -/
def winKillProcess (pid : Int) (signal : KillSignal) (nativeErr : Option String)
    (taskkillExit : Int) : WinKillTrace :=
  match nativeErr with
  | none => ⟨.ok, false, []⟩
  | some e =>
    let args := ["/PID", toString pid] ++
      (if signal = .SIGKILL then ["/F"] else [])
    if taskkillExit ≠ 0 then ⟨.threw e, true, args⟩ else ⟨.ok, true, args⟩

/-! ## Deduplication lemmas -/

theorem dedupGo_key_notin (ps : List ProcessInfo) :
    ∀ (seen : List (Int × Int)) (q : ProcessInfo),
      q ∈ dedupGo seen ps → pKey q ∉ seen := by
  induction ps with
  | nil => intro seen q h; simp [dedupGo] at h
  | cons p rest ih =>
    intro seen q h
    by_cases hp : pKey p ∈ seen
    · simp only [dedupGo] at h
      rw [if_pos hp] at h
      exact ih seen q h
    · simp only [dedupGo] at h
      rw [if_neg hp] at h
      rcases List.mem_cons.mp h with h1 | h2
      · subst h1; exact hp
      · intro hc
        exact ih _ q h2 (List.mem_cons_of_mem _ hc)

theorem dedupGo_pairwise (ps : List ProcessInfo) :
    ∀ seen, List.Pairwise (fun a b => pKey a ≠ pKey b) (dedupGo seen ps) := by
  induction ps with
  | nil => intro seen; simp [dedupGo]
  | cons p rest ih =>
    intro seen
    by_cases hp : pKey p ∈ seen
    · simp only [dedupGo]; rw [if_pos hp]; exact ih seen
    · simp only [dedupGo]; rw [if_neg hp]
      refine List.Pairwise.cons ?_ (ih _)
      intro b hb he
      exact dedupGo_key_notin rest _ b hb (by rw [← he]; exact List.mem_cons_self _ _)

theorem dedupGo_mem (ps : List ProcessInfo) :
    ∀ seen q, q ∈ dedupGo seen ps → q ∈ ps := by
  induction ps with
  | nil => intro seen q h; simp [dedupGo] at h
  | cons p rest ih =>
    intro seen q h
    by_cases hp : pKey p ∈ seen
    · simp only [dedupGo] at h
      rw [if_pos hp] at h
      exact List.mem_cons_of_mem _ (ih seen q h)
    · simp only [dedupGo] at h
      rw [if_neg hp] at h
      rcases List.mem_cons.mp h with h1 | h2
      · exact h1 ▸ List.mem_cons_self _ _
      · exact List.mem_cons_of_mem _ (ih _ q h2)

theorem dedupByPidPort_pairwise (ps : List ProcessInfo) :
    List.Pairwise (fun a b => pKey a ≠ pKey b) (dedupByPidPort ps) :=
  dedupGo_pairwise ps []

theorem tryLsof_result_pairwise (r : SpawnOutcome) (ps : List ProcessInfo)
    (h : tryLsof r = .result ps) :
    List.Pairwise (fun a b => pKey a ≠ pKey b) ps := by
  rcases r with ⟨c, out, err⟩ | en <;> simp only [tryLsof] at h
  · split at h
    · split at h
      · simp at h
      · cases h; simp
    · cases h
      exact dedupByPidPort_pairwise _
  · split at h <;> simp at h

theorem trySs_result_pairwise (userOf : Int → Option String) (r : SpawnOutcome)
    (ps : List ProcessInfo) (h : trySs userOf r = .result ps) :
    List.Pairwise (fun a b => pKey a ≠ pKey b) ps := by
  rcases r with ⟨c, out, err⟩ | en <;> simp only [trySs] at h
  · split at h
    · split at h
      · simp at h
      · cases h; simp
    · cases h
      exact dedupByPidPort_pairwise _
  · split at h <;> simp at h

/-- C1: for every textual output of `lsof` or `ss`, the list returned by
Unix `getListeningProcesses` never contains two entries with the same
`(pid, port)` pair: a process bound to one port through several file
descriptors appears exactly once. -/
theorem unix_discovery_dedup_by_pid_port (userOf : Int → Option String)
    (lsofR ssR : SpawnOutcome) (ps : List ProcessInfo)
    (h : (getListeningProcessesT userOf lsofR ssR).1 = .ok ps) :
    List.Pairwise (fun a b => pKey a ≠ pKey b) ps := by
  unfold getListeningProcessesT at h
  cases h1 : tryLsof lsofR with
  | unavailable =>
    rw [h1] at h
    cases h2 : trySs userOf ssR with
    | unavailable => rw [h2] at h; simp at h
    | result ps2 =>
      rw [h2] at h
      simp only [] at h
      cases h
      exact trySs_result_pairwise userOf ssR _ h2
    | thrownErr => rw [h2] at h; simp at h
  | result ps1 =>
    rw [h1] at h
    simp only [] at h
    cases h
    exact tryLsof_result_pairwise lsofR _ h1
  | thrownErr =>
    rw [h1] at h
    simp at h

/-- C1 witness: an `lsof` output with two file-descriptor lines for pid
12345 on port 3000 yields a single, duplicate-free entry. -/
theorem unix_discovery_dedup_by_pid_port_witness :
    List.Pairwise (fun a b => pKey a ≠ pKey b)
      [({ command := "node", pid := 12345, user := "user", port := 3000,
          protocol := "TCP" } : ProcessInfo)] :=
  unix_discovery_dedup_by_pid_port (fun _ => none)
    (.ran 0
      "COMMAND PID USER FD TYPE DEVICE OFF NODE NAME\nnode 12345 user 20u IPv4 0x1 0t0 TCP 127.0.0.1:3000 (LISTEN)\nnode 12345 user 21u IPv4 0x2 0t0 TCP 0.0.0.0:3000 (LISTEN)"
      "")
    (.ran 0 "" "") _ (by decide)

/-! ## Availability and fallback control flow -/

theorem tryLsof_unavailable_iff (r : SpawnOutcome) :
    tryLsof r = .unavailable ↔ spawnUnavailable r = true := by
  rcases r with ⟨c, o, e⟩ | en
  · simp only [tryLsof, spawnUnavailable]
    by_cases h0 : c ≠ 0
    · rw [if_pos h0]
      by_cases hb : (containsSubstr e "not found" || decide (c = 127)) = true
      · rw [if_pos hb]; simp [h0, hb]
      · rw [if_neg hb]; simp only [Bool.not_eq_true] at hb; simp [hb]
    · rw [if_neg h0]; simp at h0; simp [h0]
  · simp only [tryLsof, spawnUnavailable]
    cases en <;> simp

theorem trySs_unavailable_iff (userOf : Int → Option String) (r : SpawnOutcome) :
    trySs userOf r = .unavailable ↔ spawnUnavailable r = true := by
  rcases r with ⟨c, o, e⟩ | en
  · simp only [trySs, spawnUnavailable]
    by_cases h0 : c ≠ 0
    · rw [if_pos h0]
      by_cases hb : (containsSubstr e "not found" || decide (c = 127)) = true
      · rw [if_pos hb]; simp [h0, hb]
      · rw [if_neg hb]; simp only [Bool.not_eq_true] at hb; simp [hb]
    · rw [if_neg h0]; simp at h0; simp [h0]
  · simp only [trySs, spawnUnavailable]
    cases en <;> simp

theorem fallback_consulted_iff (u : Int → Option String) (r s : SpawnOutcome) :
    (getListeningProcessesT u r s).2 = true ↔ spawnUnavailable r = true := by
  rw [← tryLsof_unavailable_iff]
  unfold getListeningProcessesT
  cases h1 : tryLsof r with
  | unavailable => cases h2 : trySs u s <;> simp
  | result ps => simp
  | thrownErr => simp

/-- C2: when `lsof` runs but exits non-zero with a code other than 127
and a stderr without the `not found` marker, Unix discovery returns the
empty list and never consults the `ss` fallback; and in general the
fallback is consulted exactly when the primary is signalled unavailable
(exit code 127, `not found` in stderr, or an ENOENT spawn error). -/
theorem unix_primary_failure_no_fallback (userOf : Int → Option String)
    (c : Int) (out err : String) (ssR : SpawnOutcome)
    (hc : c ≠ 0) (h127 : c ≠ 127)
    (hnf : containsSubstr err "not found" = false) :
    getListeningProcessesT userOf (.ran c out err) ssR = (.ok [], false)
    ∧ ∀ (u : Int → Option String) (r s : SpawnOutcome),
        (getListeningProcessesT u r s).2 = true ↔ spawnUnavailable r = true := by
  refine ⟨?_, fun u r s => fallback_consulted_iff u r s⟩
  have hl : tryLsof (.ran c out err) = .result [] := by
    simp only [tryLsof]
    rw [if_pos hc]
    rw [if_neg (by simp [hnf, h127])]
  unfold getListeningProcessesT
  rw [hl]

/-- C2 witness: exit code 1 with a permission-denied stderr yields the
empty list without touching the fallback spawn. -/
theorem unix_primary_failure_no_fallback_witness :
    getListeningProcessesT (fun _ => none)
      (.ran 1 "" "lsof: permission denied") (.ran 0 "" "")
      = (.ok [], false) :=
  (unix_primary_failure_no_fallback (fun _ => none) 1 "" "lsof: permission denied"
    (.ran 0 "" "") (by decide) (by decide) (by decide)).1

/-- C9: when both `lsof` and `ss` are signalled unavailable, Unix
discovery ends in the fatal `process.exit(1)` — an outcome distinct from
every returned listener list, in particular from the empty one. -/
theorem unix_both_tools_unavailable_fatal (userOf : Int → Option String)
    (lsofR ssR : SpawnOutcome)
    (h1 : spawnUnavailable lsofR = true) (h2 : spawnUnavailable ssR = true) :
    getListeningProcessesT userOf lsofR ssR = (.fatalExit, true)
    ∧ ∀ ps : List ProcessInfo, DiscoveryResult.fatalExit ≠ DiscoveryResult.ok ps := by
  have hl := (tryLsof_unavailable_iff lsofR).mpr h1
  have hs := (trySs_unavailable_iff userOf ssR).mpr h2
  refine ⟨?_, fun ps => by simp⟩
  unfold getListeningProcessesT
  rw [hl, hs]

/-- C9 witness: `lsof` missing via ENOENT and `ss` missing via exit code
127 lead to the fatal exit. -/
theorem unix_both_tools_unavailable_fatal_witness :
    getListeningProcessesT (fun _ => none) (.spawnError true) (.ran 127 "" "")
      = (.fatalExit, true) :=
  (unix_both_tools_unavailable_fatal (fun _ => none) (.spawnError true)
    (.ran 127 "" "") (by decide) (by decide)).1

/-! ## Protocol and port fields of discovery entries -/

theorem parseLsofLine_protocol (line : String) (p : ProcessInfo)
    (h : parseLsofLine line = some p) : p.protocol = "TCP" := by
  unfold parseLsofLine at h
  by_cases h1 : jsTrim line = ""
  · rw [if_pos h1] at h; simp at h
  · rw [if_neg h1] at h
    by_cases h2 : (jsSplitWs line).getD 0 "" = "" ∨ (jsSplitWs line).getD 1 "" = ""
        ∨ (jsSplitWs line).getD 2 "" = ""
    · rw [if_pos h2] at h; simp at h
    · rw [if_neg h2] at h
      cases hpid : parseIntJs ((jsSplitWs line).getD 1 "") with
      | none => rw [hpid] at h; simp at h
      | some pid =>
        rw [hpid] at h
        cases hport : trailingPortMatch ((jsSplitWs line).getD 8 "") with
        | none => rw [hport] at h; simp at h
        | some ds =>
          rw [hport] at h
          cases h
          rfl

theorem parseSsLine_protocol (userOf : Int → Option String) (line : String)
    (p : ProcessInfo) (h : parseSsLine userOf line = some p) :
    p.protocol = "TCP" := by
  unfold parseSsLine at h
  by_cases h1 : jsTrim line = ""
  · rw [if_pos h1] at h; simp at h
  · rw [if_neg h1] at h
    by_cases h2 : ¬ isPrefixOfCl "LISTEN".toList line.toList = true
    · rw [if_pos h2] at h; simp at h
    · rw [if_neg h2] at h
      dsimp only at h
      cases hport : trailingPortMatch ((jsSplitWs line).getD 3 "") with
      | none => rw [hport] at h; simp at h
      | some ds =>
        rw [hport] at h
        cases hu : ssUsersScan line.toList with
        | none => rw [hu] at h; simp at h
        | some pr =>
          rw [hu] at h
          obtain ⟨command, pidN⟩ := pr
          dsimp only at h
          by_cases h3 : pidN = 0
          · rw [if_pos h3] at h; simp at h
          · rw [if_neg h3] at h
            cases h
            rfl

theorem mem_parseLsofOutput_protocol (out : String) (p : ProcessInfo)
    (h : p ∈ parseLsofOutput out) : p.protocol = "TCP" := by
  unfold parseLsofOutput dedupByPidPort at h
  obtain ⟨line, _, hp⟩ := List.mem_filterMap.mp (dedupGo_mem _ _ _ h)
  exact parseLsofLine_protocol line p hp

theorem mem_parseSsOutput_protocol (userOf : Int → Option String) (out : String)
    (p : ProcessInfo) (h : p ∈ parseSsOutput userOf out) : p.protocol = "TCP" := by
  unfold parseSsOutput dedupByPidPort at h
  obtain ⟨line, _, hp⟩ := List.mem_filterMap.mp (dedupGo_mem _ _ _ h)
  exact parseSsLine_protocol userOf line p hp

/-- C8 counterexample: the lsof parser does not range-check ports — a
textual output whose address field ends in `:70000` produces an entry
with port 70000, outside `[1, 65535]`. -/
theorem discovery_port_range_counterexample :
    (parseLsofOutput
      "COMMAND PID USER FD TYPE DEVICE OFF NODE NAME\nnode 70 root 4u IPv4 0x1 0t0 TCP *:70000 (LISTEN)").map
        ProcessInfo.port = [70000]
    ∧ ¬ ((70000 : Int) ≤ 65535) :=
  ⟨by decide, by decide⟩

/-- C8 (amended): every entry produced by any of the three discovery
parsers has `protocol = "TCP"`; the port is the numeric text extracted
from the tool's output (trailing `:digits` on Unix, the JSON `Port`
field on Windows) and is not validated against the range `[1, 65535]`. -/
theorem discovery_entries_protocol_tcp (out : String)
    (userOf : Int → Option String) (c : Int) (w : WinStdout) :
    (∀ p ∈ parseLsofOutput out, p.protocol = "TCP")
    ∧ (∀ p ∈ parseSsOutput userOf out, p.protocol = "TCP")
    ∧ (∀ ps, winGetListeningProcesses c w = .ok ps →
        ∀ p ∈ ps, p.protocol = "TCP") := by
  refine ⟨fun p hp => mem_parseLsofOutput_protocol out p hp,
    fun p hp => mem_parseSsOutput_protocol userOf out p hp, ?_⟩
  intro ps hps p hp
  unfold winGetListeningProcesses at hps
  split at hps
  · simp at hps
  · cases w with
    | emptyOut => cases hps; simp at hp
    | nullLit => cases hps; simp at hp
    | unparsable => cases hps; simp at hp
    | arr its =>
      cases hps
      obtain ⟨cn, _, hcn⟩ := List.mem_map.mp hp
      cases hcn; rfl
    | obj it =>
      cases hps
      obtain ⟨cn, _, hcn⟩ := List.mem_map.mp hp
      cases hcn; rfl

/-- C8 witness: concrete entries from each of the three parsers carry
protocol `"TCP"`. -/
theorem discovery_entries_protocol_tcp_witness :
    ({ command := "node", pid := 70, user := "root", port := 70000,
       protocol := "TCP" } : ProcessInfo).protocol = "TCP" :=
  (discovery_entries_protocol_tcp
    "COMMAND PID USER FD TYPE DEVICE OFF NODE NAME\nnode 70 root 4u IPv4 0x1 0t0 TCP *:70000 (LISTEN)"
    (fun _ => none) 0 (.obj ⟨80, 4, "nginx", none⟩)).1
    _ (by decide)

/-! ## Unix single-PID metadata -/

theorem unixGetProcessMetadata_ran_zero (d : String → Option String)
    (out err : String) (cl cr : SpawnOutcome) (ht : jsTrim out ≠ "") :
    unixGetProcessMetadata d (.ran 0 out err) cl cr =
      ⟨unixCpuPercent (jsSplitWs (jsTrim (jsTrim out))),
       unixMemoryBytes (jsSplitWs (jsTrim (jsTrim out))),
       unixStartTime d (jsSplitWs (jsTrim (jsTrim out))),
       unixPath (jsTrim out), getProcessCwd cl cr⟩ := by
  unfold unixGetProcessMetadata
  dsimp only
  rw [if_neg (by simp), if_neg ht]

/-- C6 counterexample: the metadata query fails (`ps` exits 1) while the
independent cwd lookup succeeds — the returned record is then not
all-absent: its `cwd` field carries the looked-up directory. -/
theorem unix_metadata_failure_counterexample :
    psQueryFailed (.ran 1 "" "") = true
    ∧ (unixGetProcessMetadata (fun _ => none) (.ran 1 "" "")
        (.ran 0 "p12\nn/tmp\n" "") (.ran 0 "" "")).cwd = some "/tmp" :=
  ⟨by decide, by decide⟩

/-- C6 (amended): when the `ps` metadata query fails (non-zero exit,
whitespace-only output, or a thrown spawn), `getProcessMetadata` raises
no error and returns the record with `cpuPercent`, `memoryBytes`,
`startTime` and `path` all absent; `cwd` is determined solely by the
independent working-directory lookup (absent when that also fails). -/
theorem unix_metadata_failure_returns_absent (dp : String → Option String)
    (psR cl cr : SpawnOutcome) (h : psQueryFailed psR = true) :
    unixGetProcessMetadata dp psR cl cr =
      ⟨none, none, none, none, getProcessCwd cl cr⟩ := by
  rcases psR with ⟨c, out, e⟩ | en
  · simp only [psQueryFailed, Bool.or_eq_true, decide_eq_true_eq] at h
    unfold unixGetProcessMetadata
    dsimp only
    by_cases hc : c ≠ 0
    · rw [if_pos hc]
    · rw [if_neg hc]
      have h2 : jsTrim out = "" := by
        rcases h with h | h
        · exact absurd h hc
        · exact h
      rw [if_pos h2]
  · rfl

/-- C6 witness: `ps` spawn throwing and both cwd lookups failing give
the all-absent record, with no error escaping. -/
theorem unix_metadata_failure_returns_absent_witness :
    unixGetProcessMetadata (fun _ => none) (.spawnError true)
      (.spawnError false) (.ran 1 "" "")
      = ⟨none, none, none, none, getProcessCwd (.spawnError false) (.ran 1 "" "")⟩ :=
  unix_metadata_failure_returns_absent (fun _ => none) (.spawnError true)
    (.spawnError false) (.ran 1 "" "") (by decide)

/-- C7: in Unix metadata parsing, when the five-token `lstart` field
cannot be parsed into an absolute instant by the host date parser, the
raw token string is preserved verbatim as `startTime`; when it can, the
ISO rendering is used; and the remaining fields are parsed the same
either way (they do not depend on the date parser at all). -/
theorem unix_start_time_raw_or_iso (d1 d2 : String → Option String)
    (out err : String) (cl cr : SpawnOutcome)
    (ht : jsTrim out ≠ "")
    (h8 : 8 ≤ (jsSplitWs (jsTrim (jsTrim out))).length) :
    (d1 (unixDateStr (jsSplitWs (jsTrim (jsTrim out)))) = none →
      (unixGetProcessMetadata d1 (.ran 0 out err) cl cr).startTime =
        some (unixDateStr (jsSplitWs (jsTrim (jsTrim out)))))
    ∧ (∀ iso, d1 (unixDateStr (jsSplitWs (jsTrim (jsTrim out)))) = some iso →
        (unixGetProcessMetadata d1 (.ran 0 out err) cl cr).startTime = some iso)
    ∧ ((unixGetProcessMetadata d1 (.ran 0 out err) cl cr).cpuPercent =
        (unixGetProcessMetadata d2 (.ran 0 out err) cl cr).cpuPercent
      ∧ (unixGetProcessMetadata d1 (.ran 0 out err) cl cr).memoryBytes =
        (unixGetProcessMetadata d2 (.ran 0 out err) cl cr).memoryBytes
      ∧ (unixGetProcessMetadata d1 (.ran 0 out err) cl cr).path =
        (unixGetProcessMetadata d2 (.ran 0 out err) cl cr).path
      ∧ (unixGetProcessMetadata d1 (.ran 0 out err) cl cr).cwd =
        (unixGetProcessMetadata d2 (.ran 0 out err) cl cr).cwd) := by
  rw [unixGetProcessMetadata_ran_zero d1 out err cl cr ht,
    unixGetProcessMetadata_ran_zero d2 out err cl cr ht]
  refine ⟨?_, ?_, rfl, rfl, rfl, rfl⟩
  · intro hn
    simp only [unixStartTime, if_pos h8, hn, Option.getD_none]
  · intro iso hs
    simp only [unixStartTime, if_pos h8, hs, Option.getD_some]

/-- C7 witness: an unparsable five-token timestamp is kept verbatim. -/
theorem unix_start_time_raw_or_iso_witness :
    (unixGetProcessMetadata (fun _ => none)
      (.ran 0 "0.0 0.1 7 Mon Jan 1 12:00:00 2025  /bin/x" "")
      (.spawnError false) (.spawnError false)).startTime
      = some "Mon Jan 1 12:00:00 2025" :=
  (unix_start_time_raw_or_iso (fun _ => none) (fun _ => some "x")
    "0.0 0.1 7 Mon Jan 1 12:00:00 2025  /bin/x" "" (.spawnError false)
    (.spawnError false) (by decide) (by decide)).1 rfl

/-- C10: the `rss` column (kilobytes) maps to `memoryBytes` with the
zero/`NaN` collapse of `parseInt(...) || null`: a parse failure or a
parsed 0 yields an absent `memoryBytes`, and a parsed positive `k`
yields exactly `k * 1024`. -/
theorem unix_memory_bytes_normalization (dp : String → Option String)
    (out err : String) (cl cr : SpawnOutcome) (ht : jsTrim out ≠ "") :
    ((parseIntJs ((jsSplitWs (jsTrim (jsTrim out))).getD 2 "") = none
        ∨ parseIntJs ((jsSplitWs (jsTrim (jsTrim out))).getD 2 "") = some 0) →
      (unixGetProcessMetadata dp (.ran 0 out err) cl cr).memoryBytes = none)
    ∧ (∀ k : Int, 0 < k →
        parseIntJs ((jsSplitWs (jsTrim (jsTrim out))).getD 2 "") = some k →
        (unixGetProcessMetadata dp (.ran 0 out err) cl cr).memoryBytes =
          some ((k : Rat) * 1024)) := by
  rw [unixGetProcessMetadata_ran_zero dp out err cl cr ht]
  constructor
  · intro hr
    rcases hr with hr | hr <;>
      (simp only [unixMemoryBytes, unixRssKb]; rw [hr]; rfl)
  · intro k hk hr
    simp only [unixMemoryBytes, unixRssKb]
    rw [hr]
    dsimp only
    rw [if_neg (by omega : ¬ k = 0)]
    rfl

/-- C10 witness: an `rss` column of `7` yields `memoryBytes = 7 * 1024`. -/
theorem unix_memory_bytes_normalization_witness :
    (unixGetProcessMetadata (fun _ => none)
      (.ran 0 "1.5 2 7 a b c d 2025" "") (.spawnError false)
      (.spawnError false)).memoryBytes = some (((7 : Int) : Rat) * 1024) :=
  (unix_memory_bytes_normalization (fun _ => none) "1.5 2 7 a b c d 2025" ""
    (.spawnError false) (.spawnError false) (by decide)).2 7 (by decide) (by decide)

/-! ## Windows discovery shapes (C4) -/

/-- C4: the Windows discovery parser normalizes both JSON shapes into a
list — a bare object (the one-result collapse) becomes a one-element
list, an array maps one entry per element, and empty or literal-`null`
stdout yields the empty list rather than an error. -/
theorem windows_discovery_shape_normalization (it : WinConn) (its : List WinConn) :
    winGetListeningProcesses 0 (.obj it) = .ok [winConnToInfo it]
    ∧ winGetListeningProcesses 0 (.arr its) = .ok (its.map winConnToInfo)
    ∧ (its.map winConnToInfo).length = its.length
    ∧ winGetListeningProcesses 0 .emptyOut = .ok []
    ∧ winGetListeningProcesses 0 .nullLit = .ok [] :=
  ⟨rfl, rfl, List.length_map its winConnToInfo, rfl, rfl⟩

/-! ## Windows batch metadata map lemmas (C3) -/

theorem mapGet_set_self (m : List (Int × ProcessMetadata)) (k : Int)
    (v : ProcessMetadata) : mapGet (mapSet m k v) k = some v := by
  induction m with
  | nil => simp [mapSet, mapGet]
  | cons kv rest ih =>
    obtain ⟨k2, v2⟩ := kv
    by_cases h : k2 = k
    · simp [mapSet, h, mapGet]
    · simp [mapSet, h, mapGet, ih]

theorem mapGet_set_ne (m : List (Int × ProcessMetadata)) (k : Int)
    (v : ProcessMetadata) (k2 : Int) (h : k ≠ k2) :
    mapGet (mapSet m k v) k2 = mapGet m k2 := by
  induction m with
  | nil => simp [mapSet, mapGet, h]
  | cons kv rest ih =>
    obtain ⟨k3, v3⟩ := kv
    by_cases h3 : k3 = k
    · subst h3; simp [mapSet, mapGet, h]
    · simp [mapSet, h3, mapGet, ih]

theorem foldl_set_get (pids : List Int) :
    ∀ (m : List (Int × ProcessMetadata)) (k : Int),
      mapGet (pids.foldl (fun m pid => mapSet m pid emptyMetadata) m) k =
        if k ∈ pids then some emptyMetadata else mapGet m k := by
  induction pids with
  | nil => intro m k; simp
  | cons p rest ih =>
    intro m k
    simp only [List.foldl_cons]
    rw [ih]
    by_cases hk : k ∈ rest
    · simp [hk, List.mem_cons]
    · by_cases hp : p = k
      · subst hp
        rw [if_neg hk, mapGet_set_self]
        simp [List.mem_cons]
      · rw [if_neg hk, mapGet_set_ne m p emptyMetadata k hp]
        simp [List.mem_cons, hk, Ne.symm hp]

/-- Effect of the item loop on one key, expressed over the filtered
update sequence: each matching item overwrites the slot. -/
def lastUpdateF (v : ProcessMetadata) : List WinItem → ProcessMetadata
  | [] => v
  | it :: rest => lastUpdateF (winItemToMetadata it) rest

theorem applyItems_get_none (its : List WinItem) :
    ∀ (m : List (Int × ProcessMetadata)) (k : Int), mapGet m k = none →
      mapGet (applyItems m its) k = none := by
  induction its with
  | nil => intro m k h; exact h
  | cons it rest ih =>
    intro m k h
    simp only [applyItems, List.foldl_cons]
    cases hg : mapGet m it.pid with
    | none =>
      exact ih m k h
    | some w =>
      by_cases hp : it.pid = k
      · subst hp
        rw [hg] at h
        exact absurd h (by simp)
      · exact ih (mapSet m it.pid (winItemToMetadata it)) k
          (by rw [mapGet_set_ne m it.pid (winItemToMetadata it) k hp]; exact h)

theorem applyItems_get_some (its : List WinItem) :
    ∀ (m : List (Int × ProcessMetadata)) (k : Int) (v : ProcessMetadata),
      mapGet m k = some v →
      mapGet (applyItems m its) k =
        some (lastUpdateF v (its.filter (fun it => it.pid == k))) := by
  induction its with
  | nil => intro m k v h; simpa [applyItems, lastUpdateF] using h
  | cons it rest ih =>
    intro m k v h
    simp only [applyItems, List.foldl_cons]
    by_cases hp : it.pid = k
    · have hg : mapGet m it.pid = some v := by rw [hp]; exact h
      rw [hg]
      dsimp only
      have h2 : mapGet (mapSet m it.pid (winItemToMetadata it)) k =
          some (winItemToMetadata it) := by
        rw [hp, mapGet_set_self]
      have h3 := ih _ k (winItemToMetadata it) h2
      simp only [applyItems] at h3
      rw [h3]
      simp [List.filter_cons, hp, lastUpdateF]
    · have hstep : mapGet
          (match mapGet m it.pid with
            | some _ => mapSet m it.pid (winItemToMetadata it)
            | none => m) k = some v := by
        cases hg : mapGet m it.pid with
        | none => exact h
        | some w =>
          dsimp only
          rw [mapGet_set_ne m it.pid (winItemToMetadata it) k hp]
          exact h
      have h3 := ih _ k v hstep
      simp only [applyItems] at h3
      rw [h3]
      simp [List.filter_cons, hp]

theorem batch_reduce (pids : List Int) (q : BatchOutcome) :
    winGetProcessMetadataBatch pids q =
      if pids = [] then [] else applyItems (initMetadataMap pids) (batchItems q) := by
  cases q <;> rfl

/-- C3: the batch metadata map contains exactly the requested PIDs as
keys; a requested PID the query returned no item for maps to the
all-absent record, and a requested PID with exactly one returned item
maps to that item's parsed values. -/
theorem windows_batch_metadata_map (pids : List Int) (q : BatchOutcome) (pid : Int) :
    ((mapGet (winGetProcessMetadataBatch pids q) pid).isSome ↔ pid ∈ pids)
    ∧ ((batchItems q).filter (fun it => it.pid == pid) = [] → pid ∈ pids →
        mapGet (winGetProcessMetadataBatch pids q) pid = some emptyMetadata)
    ∧ (∀ it, (batchItems q).filter (fun it2 => it2.pid == pid) = [it] →
        pid ∈ pids →
        mapGet (winGetProcessMetadataBatch pids q) pid = some (winItemToMetadata it)) := by
  rw [batch_reduce]
  by_cases hnil : pids = []
  · subst hnil
    simp [mapGet]
  · rw [if_neg hnil]
    have hsome : pid ∈ pids →
        mapGet (initMetadataMap pids) pid = some emptyMetadata := by
      intro hm
      unfold initMetadataMap
      rw [foldl_set_get, if_pos hm]
    refine ⟨?_, ?_, ?_⟩
    · by_cases hm : pid ∈ pids
      · rw [applyItems_get_some (batchItems q) _ pid emptyMetadata (hsome hm)]
        simp [hm]
      · have h1 : mapGet (initMetadataMap pids) pid = none := by
          unfold initMetadataMap
          rw [foldl_set_get, if_neg hm]
          rfl
        rw [applyItems_get_none (batchItems q) _ pid h1]
        simp [hm]
    · intro hf hm
      rw [applyItems_get_some (batchItems q) _ pid emptyMetadata (hsome hm), hf]
      rfl
    · intro it hf hm
      rw [applyItems_get_some (batchItems q) _ pid emptyMetadata (hsome hm), hf]
      rfl

/-- C3 witness: requesting PIDs `[1, 2, 3]` with data returned only for
PID 2 gives PID 2 its parsed values and PID 1 the all-absent record. -/
theorem windows_batch_metadata_map_witness :
    mapGet (winGetProcessMetadataBatch [1, 2, 3]
        (.arr [⟨2, .num 5, .num 1000, some "t", some "p", some "c"⟩])) 2
      = some (winItemToMetadata ⟨2, .num 5, .num 1000, some "t", some "p", some "c"⟩)
    ∧ mapGet (winGetProcessMetadataBatch [1, 2, 3]
        (.arr [⟨2, .num 5, .num 1000, some "t", some "p", some "c"⟩])) 1
      = some emptyMetadata :=
  ⟨(windows_batch_metadata_map [1, 2, 3]
      (.arr [⟨2, .num 5, .num 1000, some "t", some "p", some "c"⟩]) 2).2.2
      ⟨2, .num 5, .num 1000, some "t", some "p", some "c"⟩ (by decide) (by decide),
   (windows_batch_metadata_map [1, 2, 3]
      (.arr [⟨2, .num 5, .num 1000, some "t", some "p", some "c"⟩]) 1).2.1
      (by decide) (by decide)⟩

/-! ## Windows kill fallback (C5) -/

/-- C5: when native signal delivery succeeds, `taskkill` is never
spawned; when it throws and `taskkill` exits non-zero, the original
native error is re-thrown (never a `taskkill` error); when `taskkill`
succeeds, no error is raised; and the `/F` forced variant is passed
exactly when the requested signal is `SIGKILL`. -/
theorem windows_kill_error_precedence (pid : Int) (sig : KillSignal)
    (e : String) (tk : Int) :
    winKillProcess pid sig none tk = ⟨.ok, false, []⟩
    ∧ (tk ≠ 0 → winKillProcess pid sig (some e) tk =
        ⟨.threw e, true,
          ["/PID", toString pid] ++ (if sig = .SIGKILL then ["/F"] else [])⟩)
    ∧ (tk = 0 → winKillProcess pid sig (some e) tk =
        ⟨.ok, true,
          ["/PID", toString pid] ++ (if sig = .SIGKILL then ["/F"] else [])⟩) := by
  refine ⟨rfl, ?_, ?_⟩
  · intro h
    simp [winKillProcess, h]
  · intro h
    simp [winKillProcess, h]

/-- C5 witness: a native `EPERM` with failing `taskkill` (exit 1) under
`SIGKILL` re-throws `EPERM` with the forced argument vector. -/
theorem windows_kill_error_precedence_witness :
    winKillProcess 42 .SIGKILL (some "EPERM") 1
      = ⟨.threw "EPERM", true, ["/PID", "42", "/F"]⟩ :=
  (windows_kill_error_precedence 42 .SIGKILL "EPERM" 1).2.1 (by decide)

end OffMyPort
